import Mathlib

/-!
Verification of the Aira session-orchestration core.

The definitions below are a shallow embedding of the Rust sources:
`aira/aira_brain/src/llm.rs` (conversation history pruning and the
generation loop of `LlmEngine::ask`), `aira/aira_server/src/api/camera.rs`
(the emotional-state tracker, its EMA smoothing, change gating and the
hysteresis state machine) and `aira/aira_server/src/api/chat.rs`
(the output sanitizer `clean_llm_output`, the sentence-buffering
callback, the TTS worker and admission control).

Machine integers (`usize`, `u64`) are modelled as `Nat`; Rust
`saturating_sub` coincides with truncated `Nat` subtraction.  The `f32`
emotion metrics are modelled as exact rationals, faithful to the
arithmetic expressions of the source.
-/

namespace Aira

/-! ## Conversation history pruning (`llm.rs`, `prune_history_to_fit`)

History turns are represented by their `token_count` field only, which is
the one field the pruning logic reads. -/

/-- Body of the `for (i, turn) in self.history.iter().enumerate().rev()`
loop: the argument list is the reversed history, `cur` is
`current_tokens`.  The loop breaks at the first turn whose inclusion
would exceed `available`, and at the break point the original index `i`
equals the number of not-yet-visited elements, i.e. `rest.length`.
Returns `some i` when the loop breaks at original index `i`, `none` when
it runs to completion. -/
def scanBreakIndex (available : Nat) : List Nat → Nat → Option Nat
  | [], _ => none
  | t :: rest, cur =>
    if available < cur + t then some rest.length
    else scanBreakIndex available rest (cur + t)

/-- The value of `keep_from_index` after the scan loop: initialized to
`history.len()` and overwritten with `i + 1` only when the loop breaks. -/
def keep_from_index (history : List Nat) (available : Nat) : Nat :=
  match scanBreakIndex available history.reverse 0 with
  | some i => i + 1
  | none => history.length

/-- Model of `LlmEngine::prune_history_to_fit`.  `system_prompt_tokens`
and `emotion_tokens` are the two summands of `system_tokens` in the
source (`emotion_tokens = 0` when `emotional_context` is `None`); the
three `saturating_sub` calls are truncated `Nat` subtraction.  Returns
the retained history. -/
def prune_history_to_fit (history : List Nat)
    (system_prompt_tokens emotion_tokens new_message_tokens max_context_tokens : Nat) :
    List Nat :=
  let system_tokens := system_prompt_tokens + emotion_tokens
  let available_tokens := max_context_tokens - system_tokens - new_message_tokens - 50
  let kfi := keep_from_index history available_tokens
  if 0 < kfi then history.drop kfi else history

/-- `estimate_tokens` from `llm.rs`: `(text.len() / 4) + 10`. -/
def estimate_tokens (len : Nat) : Nat :=
  len / 4 + 10

/-! Helper lemmas about the scan. -/

theorem scanBreakIndex_none_sum_le (available : Nat) :
    ∀ (rev : List Nat) (cur : Nat), cur ≤ available →
      scanBreakIndex available rev cur = none → cur + rev.sum ≤ available := by
  intro rev
  induction rev with
  | nil =>
    intro cur hcur _
    simpa using hcur
  | cons t rest ih =>
    intro cur hcur hnone
    by_cases h : available < cur + t
    · simp [scanBreakIndex, h] at hnone
    · have hle : cur + t ≤ available := Nat.le_of_not_lt h
      have hrec : scanBreakIndex available rest (cur + t) = none := by
        simpa [scanBreakIndex, h] using hnone
      have := ih (cur + t) hle hrec
      simpa [List.sum_cons, Nat.add_assoc] using this

theorem scanBreakIndex_some_sum_le (available : Nat) :
    ∀ (rev : List Nat) (cur i : Nat), cur ≤ available →
      scanBreakIndex available rev cur = some i →
      i < rev.length ∧ cur + (rev.take (rev.length - (i + 1))).sum ≤ available := by
  intro rev
  induction rev with
  | nil =>
    intro cur i _ hsome
    simp [scanBreakIndex] at hsome
  | cons t rest ih =>
    intro cur i hcur hsome
    by_cases h : available < cur + t
    · have hi : i = rest.length := by
        have h2 := hsome
        simp [scanBreakIndex, h] at h2
        omega
      subst hi
      refine ⟨by simp, ?_⟩
      simp [Nat.sub_self]
      exact hcur
    · have hle : cur + t ≤ available := Nat.le_of_not_lt h
      have hrec : scanBreakIndex available rest (cur + t) = some i := by
        simpa [scanBreakIndex, h] using hsome
      have hih := ih (cur + t) i hle hrec
      refine ⟨Nat.lt_succ_of_lt hih.1, ?_⟩
      have hlen : (t :: rest).length - (i + 1) = (rest.length - (i + 1)) + 1 := by
        have h3 : i + 1 ≤ rest.length := hih.1
        simp [List.length_cons]
        omega
      rw [hlen]
      simp [List.take_succ_cons, List.sum_cons]
      have h4 := hih.2
      omega

theorem sum_take_reverse (l : List Nat) (k : Nat) :
    (l.reverse.take (l.length - k)).sum = (l.drop k).sum := by
  have h1 : l.reverse = (l.drop k).reverse ++ (l.take k).reverse := by
    rw [← List.reverse_append, List.take_append_drop]
  by_cases hk : k ≤ l.length
  · have hlen : (l.drop k).reverse.length = l.length - k := by
      simp
    rw [h1, List.take_append_of_le_length (by omega), hlen.symm, List.take_length,
      List.sum_reverse]
  · have hd : l.drop k = [] := List.drop_eq_nil_of_le (by omega)
    have ht : l.length - k = 0 := by omega
    simp [hd, ht]

/-- Sum of the turns retained by `prune_history_to_fit` never exceeds the
computed `available_tokens` budget. -/
theorem prune_sum_le_available (history : List Nat)
    (system_prompt_tokens emotion_tokens new_message_tokens max_context_tokens : Nat) :
    (prune_history_to_fit history system_prompt_tokens emotion_tokens new_message_tokens
        max_context_tokens).sum ≤
      max_context_tokens - (system_prompt_tokens + emotion_tokens) - new_message_tokens - 50 := by
  set available := max_context_tokens - (system_prompt_tokens + emotion_tokens)
    - new_message_tokens - 50 with havail
  unfold prune_history_to_fit keep_from_index
  simp only [← havail]
  cases hscan : scanBreakIndex available history.reverse 0 with
  | none =>
    by_cases hlen : 0 < history.length
    · simp [hlen, List.drop_length]
    · have h0 : history = [] := List.length_eq_zero.mp (by omega)
      simp [h0]
  | some i =>
    have hih := scanBreakIndex_some_sum_le available history.reverse 0 i (Nat.zero_le _) hscan
    have hkeep : (0 : Nat) < i + 1 := Nat.succ_pos i
    simp only [hkeep, if_pos]
    have hsum : (history.reverse.take (history.reverse.length - (i + 1))).sum ≤ available := by
      have h2 := hih.2
      omega
    have hconv : (history.reverse.take (history.reverse.length - (i + 1))).sum =
        (history.drop (i + 1)).sum := by
      rw [List.length_reverse]
      exact sum_take_reverse history (i + 1)
    omega

/-- Claim C1 (code bug evidence): with every turn fitting inside the
available budget (history token counts `[100, 100, 100, 100]`,
`system_prompt_tokens = 20`, no emotional context,
`new_message_tokens = 50`, `max_context_tokens = 1536`, so
`available = 1416 ≥ 400`), `prune_history_to_fit` drops the entire
history instead of retaining every turn, because `keep_from_index` is
initialized to `history.len()` and is only reset when the scan loop
breaks.  Under pressure (history `[800, 800, 800]`) the code keeps
exactly the most recent turn, as the claim describes. -/
theorem prune_drops_all_turns_when_all_fit :
    prune_history_to_fit [100, 100, 100, 100] 20 0 50 1536 = [] ∧
    prune_history_to_fit [800, 800, 800] 20 0 50 1536 = [800] := by
  decide

/-- Claim C2 (counterexample): the budget invariant fails for a
new message whose token estimate alone exceeds the context window —
pruning cannot shrink the history below empty, so with history `[100]`,
`system_prompt_tokens = 20`, no emotional context,
`new_message_tokens = 2000` and `max_context_tokens = 1536` the retained
sum plus overheads exceeds `max_context_tokens`. -/
theorem budget_invariant_fails_for_oversized_message :
    ¬ ((prune_history_to_fit [100] 20 0 2000 1536).sum + 20 + 0 + 2000 + 50 ≤ 1536) := by
  decide

/-- Claim C2 (amended): whenever the fixed overheads themselves fit
(`system_prompt_tokens + emotion_tokens + new_message_tokens + 50 ≤
max_context_tokens`), then immediately after `prune_history_to_fit`
returns, the sum of the retained turns' token counts plus
`system_prompt_tokens` plus the emotion-context overhead plus the
new-message tokens plus the safety buffer of 50 is at most
`max_context_tokens`. -/
theorem prune_budget_invariant (history : List Nat)
    (system_prompt_tokens emotion_tokens new_message_tokens max_context_tokens : Nat)
    (hfit : system_prompt_tokens + emotion_tokens + new_message_tokens + 50 ≤
      max_context_tokens) :
    (prune_history_to_fit history system_prompt_tokens emotion_tokens new_message_tokens
        max_context_tokens).sum
      + system_prompt_tokens + emotion_tokens + new_message_tokens + 50
      ≤ max_context_tokens := by
  have h := prune_sum_le_available history system_prompt_tokens emotion_tokens
    new_message_tokens max_context_tokens
  omega

/-- Witness for `prune_budget_invariant` at the spec's own example. -/
theorem prune_budget_invariant_witness :
    20 + 0 + 50 + 50 ≤ 1536 ∧
    (prune_history_to_fit [800, 800, 800] 20 0 50 1536).sum + 20 + 0 + 50 + 50 ≤ 1536 :=
  ⟨by decide, prune_budget_invariant [800, 800, 800] 20 0 50 1536 (by decide)⟩

/-! ## Emotion tracking (`camera.rs`)

The `f32` metrics of `EmotionalContext` are modelled as rationals; the
`u64` timestamp as `Nat`. -/

/-- Model of `EmotionalContext` from `aira_brain/src/aira.rs`. -/
structure EmotionalContext where
  fatigue : ℚ
  engagement : ℚ
  stress : ℚ
  positive_affect : ℚ
  timestamp : Nat
deriving DecidableEq

/-- The six classifier states of `EmotionState` in `camera.rs`. -/
inductive EmotionState where
  | Neutral
  | Engaged
  | Fatigued
  | Stressed
  | Happy
  | Disengaged
deriving DecidableEq

/-- Model of `EmotionStateMachine`. -/
structure EmotionStateMachine where
  current_state : EmotionState
  state_duration : Nat
  last_transition : Nat
  min_state_duration : Nat
deriving DecidableEq

/-- `EmotionStateMachine::new`. -/
def EmotionStateMachine.new : EmotionStateMachine :=
  { current_state := .Neutral
    state_duration := 0
    last_transition := 0
    min_state_duration := 3 }

/-- `EmotionStateMachine::determine_state`: priority-ordered
classification with fixed thresholds. -/
def determine_state (context : EmotionalContext) : EmotionState :=
  if 7/10 < context.fatigue then .Fatigued
  else if 6/10 < context.stress then .Stressed
  else if 6/10 < context.positive_affect then .Happy
  else if 7/10 < context.engagement then .Engaged
  else if context.engagement < 3/10 then .Disengaged
  else .Neutral

/-- `EmotionStateMachine::get_signal_strength`. -/
def get_signal_strength (context : EmotionalContext) (state : EmotionState) : ℚ :=
  match state with
  | .Fatigued => context.fatigue
  | .Stressed => context.stress
  | .Happy => context.positive_affect
  | .Engaged => context.engagement
  | .Disengaged => 1 - context.engagement
  | .Neutral => 1/2

/-- Model of `EmotionStateMachine::update`: returns the state the Rust
method returns together with the updated machine.  `saturating_sub` on
`u64` is truncated `Nat` subtraction. -/
def EmotionStateMachine.update (m : EmotionStateMachine) (context : EmotionalContext) :
    EmotionState × EmotionStateMachine :=
  let now := context.timestamp
  let dur := now - m.last_transition
  let new_state := determine_state context
  let should_transition :=
    if new_state ≠ m.current_state then
      if 17/20 < get_signal_strength context new_state then True
      else m.min_state_duration ≤ dur
    else False
  if should_transition then
    (new_state,
      { m with current_state := new_state, last_transition := now, state_duration := 0 })
  else
    (m.current_state, { m with state_duration := dur })

/-- Model of `EmotionalStateTracker`. -/
structure EmotionalStateTracker where
  current : EmotionalContext
  previous_raw : Option EmotionalContext
  alpha : ℚ
  change_threshold : ℚ
  state_machine : EmotionStateMachine
deriving DecidableEq

/-- `EmotionalStateTracker::new`; the wall-clock timestamp is a
parameter. -/
def EmotionalStateTracker.new (now : Nat) : EmotionalStateTracker :=
  { current :=
      { fatigue := 1/2, engagement := 1/2, stress := 1/2, positive_affect := 1/2
        timestamp := now }
    previous_raw := none
    alpha := 3/10
    change_threshold := 1/20
    state_machine := EmotionStateMachine.new }

/-- `EmotionalStateTracker::apply_ema`. -/
def apply_ema (t : EmotionalStateTracker) (new_state : EmotionalContext) : EmotionalContext :=
  let alpha := t.alpha
  let one_minus_alpha := 1 - alpha
  { fatigue := alpha * new_state.fatigue + one_minus_alpha * t.current.fatigue
    engagement := alpha * new_state.engagement + one_minus_alpha * t.current.engagement
    stress := alpha * new_state.stress + one_minus_alpha * t.current.stress
    positive_affect :=
      alpha * new_state.positive_affect + one_minus_alpha * t.current.positive_affect
    timestamp := new_state.timestamp }

/-- `EmotionalStateTracker::has_significant_change`. -/
def has_significant_change (t : EmotionalStateTracker) (new_state : EmotionalContext) : Prop :=
  t.change_threshold < |new_state.fatigue - t.current.fatigue|
    ∨ t.change_threshold < |new_state.engagement - t.current.engagement|
    ∨ t.change_threshold < |new_state.stress - t.current.stress|
    ∨ t.change_threshold < |new_state.positive_affect - t.current.positive_affect|

instance (t : EmotionalStateTracker) (n : EmotionalContext) :
    Decidable (has_significant_change t n) := by
  unfold has_significant_change
  infer_instance

/-- Model of `EmotionalStateTracker::update`: smooths the raw state,
feeds the state machine, and commits the smoothed state only on a
significant change.  Returns the `Option` the Rust method returns
together with the updated tracker. -/
def EmotionalStateTracker.update (t : EmotionalStateTracker) (raw_state : EmotionalContext) :
    Option EmotionalContext × EmotionalStateTracker :=
  let smoothed := apply_ema t raw_state
  let sm := (t.state_machine.update smoothed).2
  if has_significant_change t smoothed then
    (some smoothed,
      { t with current := smoothed, previous_raw := some raw_state, state_machine := sm })
  else
    (none, { t with state_machine := sm })

/-- `EmotionalStateTracker::get_current`. -/
def EmotionalStateTracker.get_current (t : EmotionalStateTracker) : EmotionalContext :=
  t.current

/-- Repeated application of `update` with the identical raw input. -/
def iterateUpdate (r : EmotionalContext) (t : EmotionalStateTracker) : Nat → EmotionalStateTracker
  | 0 => t
  | n + 1 => ((iterateUpdate r t n).update r).2

/-- Claim C5: with `current_state = Neutral` and `min_state_duration = 3`,
a sample with `fatigue = 0.75` arriving 1 second after the last
transition does not change the state; an identical sample arriving 3 or
more seconds after the last transition transitions to `Fatigued`; and a
sample with `fatigue = 0.95` transitions to `Fatigued` immediately
regardless of the elapsed time since the last transition. -/
theorem hysteresis_gating (dur last : Nat) (e s p : ℚ) :
    (((EmotionStateMachine.mk .Neutral dur last 3).update
        ⟨3/4, e, s, p, last + 1⟩).1 = .Neutral ∧
      ((EmotionStateMachine.mk .Neutral dur last 3).update
        ⟨3/4, e, s, p, last + 1⟩).2.current_state = .Neutral) ∧
    (∀ k : Nat, 3 ≤ k →
      ((EmotionStateMachine.mk .Neutral dur last 3).update
        ⟨3/4, e, s, p, last + k⟩).1 = .Fatigued) ∧
    (∀ now : Nat,
      ((EmotionStateMachine.mk .Neutral dur last 3).update
        ⟨19/20, e, s, p, now⟩).1 = .Fatigued) := by
  refine ⟨?_, ?_, ?_⟩
  · have hds : determine_state ⟨3/4, e, s, p, last + 1⟩ = .Fatigued := by
      unfold determine_state
      norm_num
    unfold EmotionStateMachine.update
    simp only [hds]
    norm_num [get_signal_strength]
  · intro k hk
    have hds : determine_state ⟨3/4, e, s, p, last + k⟩ = .Fatigued := by
      unfold determine_state
      norm_num
    unfold EmotionStateMachine.update
    simp only [hds]
    norm_num [get_signal_strength, Nat.add_sub_cancel_left, hk]
    simp
  · intro now
    have hds : determine_state ⟨19/20, e, s, p, now⟩ = .Fatigued := by
      unfold determine_state
      norm_num
    unfold EmotionStateMachine.update
    simp only [hds]
    norm_num [get_signal_strength]
    simp

/-- Witness for `hysteresis_gating` at concrete inputs. -/
theorem hysteresis_gating_witness :
    ((EmotionStateMachine.mk .Neutral 0 100 3).update
        ⟨3/4, 1/2, 1/2, 1/2, 100 + 1⟩).1 = .Neutral ∧
    ((EmotionStateMachine.mk .Neutral 0 100 3).update
        ⟨3/4, 1/2, 1/2, 1/2, 100 + 3⟩).1 = .Fatigued ∧
    ((EmotionStateMachine.mk .Neutral 0 100 3).update
        ⟨19/20, 1/2, 1/2, 1/2, 100⟩).1 = .Fatigued :=
  ⟨(hysteresis_gating 0 100 (1/2) (1/2) (1/2)).1.1,
    (hysteresis_gating 0 100 (1/2) (1/2) (1/2)).2.1 3 (by decide),
    (hysteresis_gating 0 100 (1/2) (1/2) (1/2)).2.2 100⟩

/-- Claim C6: for every tracker state and every raw input whose smoothed
value differs from the previously committed context by at most the
change threshold in every one of the four metrics, `update` returns
`None` and the committed current context returned by `get_current` is
unchanged. -/
theorem change_gating (t : EmotionalStateTracker) (raw : EmotionalContext)
    (h : |(apply_ema t raw).fatigue - t.current.fatigue| ≤ t.change_threshold ∧
      |(apply_ema t raw).engagement - t.current.engagement| ≤ t.change_threshold ∧
      |(apply_ema t raw).stress - t.current.stress| ≤ t.change_threshold ∧
      |(apply_ema t raw).positive_affect - t.current.positive_affect| ≤ t.change_threshold) :
    (t.update raw).1 = none ∧ (t.update raw).2.get_current = t.get_current := by
  have hns : ¬ has_significant_change t (apply_ema t raw) := by
    unfold has_significant_change
    push_neg
    exact ⟨h.1, h.2.1, h.2.2.1, h.2.2.2⟩
  unfold EmotionalStateTracker.update
  simp [hns, EmotionalStateTracker.get_current]

/-- Witness for `change_gating`: the default tracker fed a raw input
equal to its committed context smooths to the identical context, so
every metric delta is zero. -/
theorem change_gating_witness :
    ((EmotionalStateTracker.new 0).update ⟨1/2, 1/2, 1/2, 1/2, 7⟩).1 = none ∧
    ((EmotionalStateTracker.new 0).update ⟨1/2, 1/2, 1/2, 1/2, 7⟩).2.get_current =
      (EmotionalStateTracker.new 0).get_current :=
  change_gating (EmotionalStateTracker.new 0) ⟨1/2, 1/2, 1/2, 1/2, 7⟩
    ⟨by norm_num [apply_ema, EmotionalStateTracker.new],
      by norm_num [apply_ema, EmotionalStateTracker.new],
      by norm_num [apply_ema, EmotionalStateTracker.new],
      by norm_num [apply_ema, EmotionalStateTracker.new]⟩

/-- Raw input for the EMA counterexample: every metric `0.55`, against a
default committed context of `0.5`. -/
def rStuck : EmotionalContext :=
  { fatigue := 11/20, engagement := 11/20, stress := 11/20, positive_affect := 11/20
    timestamp := 1 }

theorem update_preserves_params (t : EmotionalStateTracker) (r : EmotionalContext) :
    (t.update r).2.alpha = t.alpha ∧ (t.update r).2.change_threshold = t.change_threshold := by
  unfold EmotionalStateTracker.update
  by_cases h : has_significant_change t (apply_ema t r) <;> simp [h]

theorem iterate_params (r : EmotionalContext) (t : EmotionalStateTracker) (n : Nat) :
    (iterateUpdate r t n).alpha = t.alpha ∧
      (iterateUpdate r t n).change_threshold = t.change_threshold := by
  induction n with
  | zero => exact ⟨rfl, rfl⟩
  | succ n ih =>
    have h := update_preserves_params (iterateUpdate r t n) r
    rw [iterateUpdate]
    exact ⟨h.1.trans ih.1, h.2.trans ih.2⟩

theorem update_current_cases (t : EmotionalStateTracker) (r : EmotionalContext) :
    (t.update r).2.current = apply_ema t r ∨
      ((t.update r).2.current = t.current ∧
        ¬ has_significant_change t (apply_ema t r)) := by
  unfold EmotionalStateTracker.update
  by_cases h : has_significant_change t (apply_ema t r) <;> simp [h]

/-- When the very first update is gated away, every later update with
the same raw input is gated away as well, so the committed context never
moves. -/
theorem iterate_frozen (t : EmotionalStateTracker) (r : EmotionalContext)
    (h : ¬ has_significant_change t (apply_ema t r)) (n : Nat) :
    (iterateUpdate r t n).current = t.current := by
  induction n with
  | zero => rfl
  | succ n ih =>
    have hs : apply_ema (iterateUpdate r t n) r = apply_ema t r := by
      unfold apply_ema
      rw [(iterate_params r t n).1, ih]
    have hsig : ¬ has_significant_change (iterateUpdate r t n)
        (apply_ema (iterateUpdate r t n) r) := by
      rw [hs]
      unfold has_significant_change at h ⊢
      rw [(iterate_params r t n).2, ih]
      exact h
    have hstep : iterateUpdate r t (n + 1) = ((iterateUpdate r t n).update r).2 := rfl
    rw [hstep]
    unfold EmotionalStateTracker.update
    simp only [hsig, if_neg, not_false_eq_true]
    exact ih

/-- Claim C4 (counterexample): with `alpha = 0.3` and the default change
threshold `0.05`, the default committed context (all metrics `0.5`)
differs from the raw input `rStuck` (all metrics `0.55`), yet repeated
updates never commit anything — the smoothed delta is `0.015`, below the
threshold — so after 15 iterations the committed context is unchanged
and its distance to `rStuck` is `0.05 > 1%`: the tracker does not come
within 1% of the raw input. -/
theorem ema_one_percent_counterexample :
    (EmotionalStateTracker.new 0).get_current.fatigue ≠ rStuck.fatigue ∧
    (iterateUpdate rStuck (EmotionalStateTracker.new 0) 15).get_current =
      (EmotionalStateTracker.new 0).get_current ∧
    ¬ (|(iterateUpdate rStuck (EmotionalStateTracker.new 0) 15).get_current.fatigue -
        rStuck.fatigue| ≤ 1/100) := by
  have hgate : ¬ has_significant_change (EmotionalStateTracker.new 0)
      (apply_ema (EmotionalStateTracker.new 0) rStuck) := by
    unfold has_significant_change apply_ema EmotionalStateTracker.new rStuck
    push_neg
    refine ⟨?_, ?_, ?_, ?_⟩ <;>
      · rw [abs_le]
        constructor <;> norm_num
  have hfrozen := iterate_frozen (EmotionalStateTracker.new 0) rStuck hgate 15
  refine ⟨?_, ?_, ?_⟩
  · unfold EmotionalStateTracker.new EmotionalStateTracker.get_current rStuck
    norm_num
  · unfold EmotionalStateTracker.get_current
    exact hfrozen
  · unfold EmotionalStateTracker.get_current
    rw [hfrozen]
    unfold EmotionalStateTracker.new rStuck
    simp only
    rw [show (1/2 : ℚ) - 11/20 = -(1/20) by norm_num, abs_neg, abs_of_nonneg (by norm_num)]
    norm_num

theorem ema_commit_dist (r c : ℚ) :
    |r - (3/10 * r + (1 - 3/10) * c)| = 7/10 * |r - c| := by
  have h : r - (3/10 * r + (1 - 3/10) * c) = (7/10) * (r - c) := by ring
  rw [h, abs_mul]
  norm_num

theorem ema_freeze_dist (r c : ℚ) (h : |(3/10 * r + (1 - 3/10) * c) - c| ≤ 1/20) :
    |r - c| ≤ 1/6 := by
  have h2 : (3/10 * r + (1 - 3/10) * c) - c = (3/10) * (r - c) := by ring
  rw [h2, abs_mul] at h
  have h3 : |(3/10 : ℚ)| = 3/10 := by norm_num
  rw [h3] at h
  linarith

/-- Per-metric distance bound of the gated EMA after `n` iterations:
either the gating froze the context at distance at most
`change_threshold / alpha = 1/6`, or every step committed and the
distance contracted by `7/10` per step. -/
theorem iterate_dist_bound (t : EmotionalStateTracker) (r : EmotionalContext)
    (hα : t.alpha = 3/10) (hth : t.change_threshold = 1/20) (n : Nat) :
    |r.fatigue - (iterateUpdate r t n).current.fatigue| ≤
        max (1/6) ((7/10)^n * |r.fatigue - t.current.fatigue|) ∧
      |r.engagement - (iterateUpdate r t n).current.engagement| ≤
        max (1/6) ((7/10)^n * |r.engagement - t.current.engagement|) ∧
      |r.stress - (iterateUpdate r t n).current.stress| ≤
        max (1/6) ((7/10)^n * |r.stress - t.current.stress|) ∧
      |r.positive_affect - (iterateUpdate r t n).current.positive_affect| ≤
        max (1/6) ((7/10)^n * |r.positive_affect - t.current.positive_affect|) := by
  induction n with
  | zero =>
    refine ⟨?_, ?_, ?_, ?_⟩ <;>
      simp [iterateUpdate]
  | succ n ih =>
    have hαn : (iterateUpdate r t n).alpha = 3/10 := (iterate_params r t n).1.trans hα
    have hthn : (iterateUpdate r t n).change_threshold = 1/20 :=
      (iterate_params r t n).2.trans hth
    have hstep : iterateUpdate r t (n + 1) = ((iterateUpdate r t n).update r).2 := rfl
    rcases update_current_cases (iterateUpdate r t n) r with hc | ⟨hc, hns⟩
    · rw [hstep, hc]
      have hmax : ∀ d dz : ℚ, d ≤ max (1/6) ((7/10)^n * dz) →
          7/10 * d ≤ max (1/6) ((7/10)^(n+1) * dz) := by
        intro d dz hd
        have h1 : 7/10 * d ≤ 7/10 * max (1/6) ((7/10)^n * dz) := by
          have : (0:ℚ) ≤ 7/10 := by norm_num
          exact mul_le_mul_of_nonneg_left hd this
        have h2 : 7/10 * max (1/6) ((7/10)^n * dz) =
            max (7/10 * (1/6)) (7/10 * ((7/10)^n * dz)) := by
          exact mul_max_of_nonneg _ _ (by norm_num)
        have h3 : max (7/10 * (1/6)) (7/10 * ((7/10)^n * dz)) ≤
            max (1/6) ((7/10)^(n+1) * dz) := by
          apply max_le_max
          · norm_num
          · rw [pow_succ]
            ring_nf
            exact le_refl _
        calc 7/10 * d ≤ _ := h1
          _ = _ := h2
          _ ≤ _ := h3
      refine ⟨?_, ?_, ?_, ?_⟩
      · have := ih.1
        simp only [apply_ema, hαn]
        rw [ema_commit_dist]
        exact hmax _ _ this
      · have := ih.2.1
        simp only [apply_ema, hαn]
        rw [ema_commit_dist]
        exact hmax _ _ this
      · have := ih.2.2.1
        simp only [apply_ema, hαn]
        rw [ema_commit_dist]
        exact hmax _ _ this
      · have := ih.2.2.2
        simp only [apply_ema, hαn]
        rw [ema_commit_dist]
        exact hmax _ _ this
    · rw [hstep, hc]
      have hfrozen : ∀ x : ℚ, |x| ≤ 1/6 → x ≠ 0 → True := fun _ _ _ => trivial
      unfold has_significant_change at hns
      push_neg at hns
      rw [hthn] at hns
      simp only [apply_ema, hαn] at hns
      refine ⟨?_, ?_, ?_, ?_⟩
      · exact le_max_of_le_left (ema_freeze_dist _ _ hns.1)
      · exact le_max_of_le_left (ema_freeze_dist _ _ hns.2.1)
      · exact le_max_of_le_left (ema_freeze_dist _ _ hns.2.2.1)
      · exact le_max_of_le_left (ema_freeze_dist _ _ hns.2.2.2)

/-- Claim C4 (amended): with `alpha = 0.3` and the tracker's default
change threshold `0.05`, starting from any committed current context
with all metrics in `[0, 1]`, calling `update` repeatedly with an
identical raw input `r` (metrics in `[0, 1]`) brings the committed
current context, as returned by `get_current`, to within
`change_threshold / alpha = 1/6` of `r` in every metric within 15
iterations.  Convergence to within 1% is not achieved in general:
change gating freezes the committed context as soon as every metric's
smoothed delta is at most the threshold. -/
theorem ema_gated_convergence (t : EmotionalStateTracker) (r : EmotionalContext)
    (hα : t.alpha = 3/10) (hth : t.change_threshold = 1/20)
    (hc : 0 ≤ t.current.fatigue ∧ t.current.fatigue ≤ 1 ∧
      0 ≤ t.current.engagement ∧ t.current.engagement ≤ 1 ∧
      0 ≤ t.current.stress ∧ t.current.stress ≤ 1 ∧
      0 ≤ t.current.positive_affect ∧ t.current.positive_affect ≤ 1)
    (hr : 0 ≤ r.fatigue ∧ r.fatigue ≤ 1 ∧ 0 ≤ r.engagement ∧ r.engagement ≤ 1 ∧
      0 ≤ r.stress ∧ r.stress ≤ 1 ∧ 0 ≤ r.positive_affect ∧ r.positive_affect ≤ 1) :
    |r.fatigue - (iterateUpdate r t 15).get_current.fatigue| ≤ 1/6 ∧
    |r.engagement - (iterateUpdate r t 15).get_current.engagement| ≤ 1/6 ∧
    |r.stress - (iterateUpdate r t 15).get_current.stress| ≤ 1/6 ∧
    |r.positive_affect - (iterateUpdate r t 15).get_current.positive_affect| ≤ 1/6 := by
  have hb := iterate_dist_bound t r hα hth 15
  have key : ∀ ra ca d : ℚ, 0 ≤ ra → ra ≤ 1 → 0 ≤ ca → ca ≤ 1 →
      d ≤ max (1/6) ((7/10)^15 * |ra - ca|) → d ≤ 1/6 := by
    intro ra ca d h1 h2 h3 h4 hd
    have habs : |ra - ca| ≤ 1 := by
      rw [abs_le]
      constructor <;> linarith
    have hp : ((7:ℚ)/10)^15 * |ra - ca| ≤ (7/10)^15 * 1 :=
      mul_le_mul_of_nonneg_left habs (by positivity)
    have hlt : ((7:ℚ)/10)^15 ≤ 1/6 := by norm_num
    have hmax : max (1/6 : ℚ) ((7/10)^15 * |ra - ca|) ≤ 1/6 := by
      apply max_le le_rfl
      calc ((7:ℚ)/10)^15 * |ra - ca| ≤ (7/10)^15 * 1 := hp
        _ = (7/10)^15 := mul_one _
        _ ≤ 1/6 := hlt
    linarith
  unfold EmotionalStateTracker.get_current
  exact ⟨key _ _ _ hr.1 hr.2.1 hc.1 hc.2.1 hb.1,
    key _ _ _ hr.2.2.1 hr.2.2.2.1 hc.2.2.1 hc.2.2.2.1 hb.2.1,
    key _ _ _ hr.2.2.2.2.1 hr.2.2.2.2.2.1 hc.2.2.2.2.1 hc.2.2.2.2.2.1 hb.2.2.1,
    key _ _ _ hr.2.2.2.2.2.2.1 hr.2.2.2.2.2.2.2 hc.2.2.2.2.2.2.1 hc.2.2.2.2.2.2.2 hb.2.2.2⟩

/-- Witness for `ema_gated_convergence`: the default tracker driven by a
constant all-ones raw input. -/
theorem ema_gated_convergence_witness :
    |(⟨1, 1, 1, 1, 0⟩ : EmotionalContext).fatigue -
      (iterateUpdate ⟨1, 1, 1, 1, 0⟩ (EmotionalStateTracker.new 0) 15).get_current.fatigue|
        ≤ 1/6 ∧
    |(⟨1, 1, 1, 1, 0⟩ : EmotionalContext).engagement -
      (iterateUpdate ⟨1, 1, 1, 1, 0⟩ (EmotionalStateTracker.new 0) 15).get_current.engagement|
        ≤ 1/6 ∧
    |(⟨1, 1, 1, 1, 0⟩ : EmotionalContext).stress -
      (iterateUpdate ⟨1, 1, 1, 1, 0⟩ (EmotionalStateTracker.new 0) 15).get_current.stress|
        ≤ 1/6 ∧
    |(⟨1, 1, 1, 1, 0⟩ : EmotionalContext).positive_affect -
      (iterateUpdate ⟨1, 1, 1, 1, 0⟩
        (EmotionalStateTracker.new 0) 15).get_current.positive_affect| ≤ 1/6 :=
  ema_gated_convergence (EmotionalStateTracker.new 0) ⟨1, 1, 1, 1, 0⟩ rfl rfl
    (by norm_num [EmotionalStateTracker.new]) (by norm_num)

/-! ## LLM output sanitizer (`chat.rs`, `clean_llm_output`) -/

/-- Condition under which a lone asterisk is treated as a bullet point:
`result.is_empty() || result.ends_with('\n') || result.ends_with(' ')`. -/
def bulletContext (acc : List Char) : Bool :=
  acc.isEmpty || acc.getLast? == some (Char.ofNat 10) || acc.getLast? == some ' '

/-- The character-consuming loop of `clean_llm_output`; `acc` is the
`result` string built so far.  One branch of the Rust loop is inlined
here: when a `*` in a non-bullet context is followed by a space, the
loop skips only the asterisk and the next iteration copies the space
verbatim (the space matches the default arm), which is the
`acc ++ [' ']` case below. -/
def cleanGo : List Char → List Char → List Char
  | acc, [] => acc
  | acc, '*' :: '*' :: rest2 => cleanGo acc rest2
  | acc, '*' :: ' ' :: rest2 =>
    if bulletContext acc then cleanGo (acc ++ ['•', ' ']) rest2
    else cleanGo (acc ++ [' ']) rest2
  | acc, '*' :: rest =>
    if bulletContext acc then cleanGo (acc ++ ['•']) rest
    else cleanGo acc rest
  | acc, '_' :: '_' :: rest2 => cleanGo acc rest2
  | acc, '_' :: rest => cleanGo acc rest
  | acc, c :: rest => cleanGo (acc ++ [c]) rest

/-- Model of `clean_llm_output` from `chat.rs`. -/
def clean_llm_output (s : String) : String :=
  ⟨cleanGo [] s.data⟩

/-! ## Sentence buffering and synthesis dispatch (`chat.rs`, `chat`) -/

/-- Whether the sentence buffer ends with `.`, `?` or `!`
(`String::ends_with(char)` inspects the final character). -/
def endsWithBoundary (buf : List Char) : Bool :=
  buf.getLast? == some '.' || buf.getLast? == some '?' || buf.getLast? == some '!'

/-- UTF-8 byte length, matching Rust `String::len`. -/
def utf8Length (l : List Char) : Nat :=
  (l.map Char.utf8Size).sum

/-- Rust `!buffer.trim().is_empty()`: the buffer holds at least one
non-whitespace character. -/
def hasNonWhitespace (l : List Char) : Bool :=
  l.any fun c => !c.isWhitespace

/-- One invocation of the per-token callback in `chat`: cleans the
token, appends it to the sentence buffer, and dispatches the buffer as
one synthesis chunk when it ends with a sentence boundary or exceeds 150
bytes (only when its trimmed content is non-empty).  Returns the new
buffer and the chunk dispatched to the TTS worker, if any. -/
def chatCallback (buf : List Char) (token : String) : List Char × Option String :=
  let cleaned := cleanGo [] token.data
  let buf1 := buf ++ cleaned
  if endsWithBoundary buf1 || decide (150 < utf8Length buf1) then
    if hasNonWhitespace buf1 then ([], some ⟨buf1⟩) else (buf1, none)
  else (buf1, none)

/-- Folds the callback over a fragment sequence, collecting the chunks
dispatched to the synthesis worker in order. -/
def runChatStream : List Char → List String → List Char × List String
  | buf, [] => (buf, [])
  | buf, t :: ts =>
    let step := chatCallback buf t
    let rest := runChatStream step.1 ts
    (rest.1, step.2.toList ++ rest.2)

/-- All synthesis chunks dispatched for a fragment sequence, including
the final flush of a non-empty remaining buffer after generation
completes. -/
def chatDispatches (tokens : List String) : List String :=
  let run := runChatStream [] tokens
  run.2 ++ (if hasNonWhitespace run.1 then [(⟨run.1⟩ : String)] else [])

/-! ## Outbound events and the TTS worker (`chat.rs`) -/

/-- An SSE event as constructed in `chat.rs`: a `kind` (the `.event(..)`
name, `"message"` for the unlabeled default) and a `data` payload. -/
structure SseEvent where
  kind : String
  data : String
deriving DecidableEq

/-- Model of the TTS worker loop in `chat`: chunks are taken in order;
`pipeline` abstracts `tts.synthesize` followed by
`samples_to_base64_wav`.  On success an `audio_complete` event is sent
on the outbound channel; on failure the error is written to stderr via
`eprintln!` and nothing is sent.  The worker then continues with the
next chunk. -/
def tts_worker (pipeline : String → Except String String) : List String → List SseEvent
  | [] => []
  | chunk :: rest =>
    match pipeline chunk with
    | .ok wav => ⟨"audio_complete", wav⟩ :: tts_worker pipeline rest
    | .error _ => tts_worker pipeline rest

/-! ## Admission control (`chat.rs` and `main.rs`) -/

/-- Outcome of `timeout(Duration::from_secs(5), semaphore.acquire())` in
`chat`: the permit was acquired, the semaphore was closed, or the
5-second wait elapsed. -/
inductive AdmissionOutcome where
  | acquired
  | closed
  | timedOut

/-- The admission `match` at the top of `chat`: `none` means a permit
was obtained and the handler proceeds to spawn the pipeline; `some
events` means the handler returns the given event stream immediately,
before touching any engine. -/
def chat_admission : AdmissionOutcome → Option (List SseEvent)
  | .acquired => none
  | .closed => some [⟨"error", "Server is shutting down"⟩]
  | .timedOut => some [⟨"error", "Server is busy, please try again"⟩]

/-- Atomic actions of admitted chat turns against the shared engine
state (`aira_state`, a mutex): a turn locks the state, performs its
generation steps under the lock (`guard.think(..)` runs while the guard
is held), and unlocks.  Requests are identified by `Nat` ids. -/
inductive TurnAction where
  | lockState (r : Nat)
  | genStep (r : Nat)
  | unlockState (r : Nat)
deriving DecidableEq

/-- Whether an action releases the engine-state lock. -/
def isUnlock : TurnAction → Bool
  | .unlockState _ => true
  | _ => false

/-- Small-step semantics of the engine-state mutex: the state is the
current holder.  `none` as a result marks an impossible (blocked)
action: locking a held mutex, or generating or unlocking without
holding it. -/
def stepAction : Option Nat → TurnAction → Option (Option Nat)
  | none, .lockState r => some (some r)
  | some _, .lockState _ => none
  | some h, .genStep r => if h = r then some (some h) else none
  | none, .genStep _ => none
  | some h, .unlockState r => if h = r then some none else none
  | none, .unlockState _ => none

/-- Executes a trace of actions from a lock state; `some s` means every
action was enabled and `s` is the final lock state. -/
def runTrace : Option Nat → List TurnAction → Option (Option Nat)
  | s, [] => some s
  | s, a :: rest =>
    match stepAction s a with
    | some s2 => runTrace s2 rest
    | none => none

/-! ## The generation loop of `LlmEngine::ask` (`llm.rs`) -/

/-- Bool-valued test for `needle` occurring as a contiguous substring of
`hay`, matching Rust `str::contains(&str)`. -/
def containsSeq (needle : List Char) : List Char → Bool
  | [] => needle.isPrefixOf []
  | c :: rest => needle.isPrefixOf (c :: rest) || containsSeq needle rest

/-- The stop-token check of `ask`:
`piece.contains("<|im_end|>") || piece.contains("<|im_start|>")`. -/
def hasStopMarker (piece : String) : Bool :=
  containsSeq "<|im_end|>".data piece.data || containsSeq "<|im_start|>".data piece.data

/-- The token-consumption loop of `LlmEngine::ask` over the stream of
generated pieces.  `cb` abstracts the per-fragment callback (`true` for
`Ok(())`).  A piece containing a stop marker breaks the loop before
being recorded or forwarded; otherwise the piece is appended to
`assistant_response` and then passed to the callback, whose failure also
breaks the loop.  Returns the assembled `assistant_response` (recorded
into history as the assistant turn) and the list of pieces passed to the
callback, in order. -/
def askLoop (cb : String → Bool) : List String → String × List String
  | [] => ("", [])
  | p :: rest =>
    if hasStopMarker p then ("", [])
    else if cb p then
      let r := askLoop cb rest
      (p ++ r.1, p :: r.2)
    else (p, [p])

theorem cleanGo_id_of_no_special :
    ∀ (acc l : List Char), (∀ c ∈ l, c ≠ '*' ∧ c ≠ '_') → cleanGo acc l = acc ++ l := by
  intro acc l
  induction acc, l using cleanGo.induct with
  | case1 acc =>
    intro _
    simp [cleanGo]
  | case2 acc rest2 ih =>
    intro h
    exact absurd rfl (h '*' (by simp)).1
  | case3 acc rest2 hb ih =>
    intro h
    exact absurd rfl (h '*' (by simp)).1
  | case4 acc rest2 hb ih =>
    intro h
    exact absurd rfl (h '*' (by simp)).1
  | case5 acc rest h1 h2 hb ih =>
    intro h
    exact absurd rfl (h '*' (by simp)).1
  | case6 acc rest h1 h2 hb ih =>
    intro h
    exact absurd rfl (h '*' (by simp)).1
  | case7 acc rest2 ih =>
    intro h
    exact absurd rfl (h '_' (by simp)).2
  | case8 acc rest h1 ih =>
    intro h
    exact absurd rfl (h '_' (by simp)).2
  | case9 acc c rest h1 h2 h3 h4 h5 ih =>
    intro h
    rw [cleanGo.eq_7 acc c rest h1 h2 h3 h4 h5]
    rw [ih fun d hd => h d (List.mem_cons_of_mem c hd)]
    simp

theorem cleanGo_no_special_output :
    ∀ (acc l : List Char), '*' ∉ acc → '_' ∉ acc →
      '*' ∉ cleanGo acc l ∧ '_' ∉ cleanGo acc l := by
  intro acc l
  induction acc, l using cleanGo.induct with
  | case1 acc =>
    intro h1 h2
    rw [cleanGo.eq_1]
    exact ⟨h1, h2⟩
  | case2 acc rest2 ih =>
    intro h1 h2
    rw [cleanGo.eq_2]
    exact ih h1 h2
  | case3 acc rest2 hb ih =>
    intro h1 h2
    rw [cleanGo.eq_3, if_pos hb]
    exact ih (by simp [h1]) (by simp [h2])
  | case4 acc rest2 hb ih =>
    intro h1 h2
    rw [cleanGo.eq_3, if_neg hb]
    exact ih (by simp [h1]) (by simp [h2])
  | case5 acc rest h1 h2 hb ih =>
    intro ha1 ha2
    rw [cleanGo.eq_4 acc rest h1 h2, if_pos hb]
    exact ih (by simp [ha1]) (by simp [ha2])
  | case6 acc rest h1 h2 hb ih =>
    intro ha1 ha2
    rw [cleanGo.eq_4 acc rest h1 h2, if_neg hb]
    exact ih ha1 ha2
  | case7 acc rest2 ih =>
    intro h1 h2
    rw [cleanGo.eq_5]
    exact ih h1 h2
  | case8 acc rest h1 ih =>
    intro ha1 ha2
    rw [cleanGo.eq_6 acc rest h1]
    exact ih ha1 ha2
  | case9 acc c rest h1 h2 h3 h4 h5 ih =>
    intro ha1 ha2
    rw [cleanGo.eq_7 acc c rest h1 h2 h3 h4 h5]
    refine ih ?_ ?_
    · simp only [List.mem_append, List.mem_singleton]
      rintro (hm | hm)
      · exact ha1 hm
      · exact h3 hm.symm
    · simp only [List.mem_append, List.mem_singleton]
      rintro (hm | hm)
      · exact ha2 hm
      · exact h5 hm.symm

theorem cleanGo_filter (p : Char → Bool) (hps : p '*' = false) (hpu : p '_' = false)
    (hpb : p '•' = false) :
    ∀ (acc l : List Char), (cleanGo acc l).filter p = acc.filter p ++ l.filter p := by
  intro acc l
  induction acc, l using cleanGo.induct with
  | case1 acc => simp [cleanGo.eq_1]
  | case2 acc rest2 ih =>
    rw [cleanGo.eq_2, ih]
    simp [List.filter_cons, hps]
  | case3 acc rest2 hb ih =>
    rw [cleanGo.eq_3, if_pos hb, ih]
    simp [List.filter_append, List.filter_cons, hps, hpb]
    split <;> simp
  | case4 acc rest2 hb ih =>
    rw [cleanGo.eq_3, if_neg hb, ih]
    simp [List.filter_append, List.filter_cons, hps]
    split <;> simp
  | case5 acc rest h1 h2 hb ih =>
    rw [cleanGo.eq_4 acc rest h1 h2, if_pos hb, ih]
    simp [List.filter_append, List.filter_cons, hps, hpb]
  | case6 acc rest h1 h2 hb ih =>
    rw [cleanGo.eq_4 acc rest h1 h2, if_neg hb, ih]
    simp [List.filter_cons, hps]
  | case7 acc rest2 ih =>
    rw [cleanGo.eq_5, ih]
    simp [List.filter_cons, hpu]
  | case8 acc rest h1 ih =>
    rw [cleanGo.eq_6 acc rest h1, ih]
    simp [List.filter_cons, hpu]
  | case9 acc c rest h1 h2 h3 h4 h5 ih =>
    rw [cleanGo.eq_7 acc c rest h1 h2 h3 h4 h5, ih]
    simp [List.filter_append, List.filter_cons]
    split <;> simp

/-- Claim C8: `clean_llm_output` is idempotent, and the subsequence of
alphanumeric characters of its output equals the subsequence of
alphanumeric characters of its input.  (The only characters the
sanitizer removes are `*`, `_` and, in the bullet case, a space that is
re-emitted after the inserted `•`; the only characters it inserts are
`•` and that space — none of them alphanumeric.) -/
theorem clean_llm_output_idempotent_alnum (s : String) :
    clean_llm_output (clean_llm_output s) = clean_llm_output s ∧
    (clean_llm_output s).data.filter Char.isAlphanum = s.data.filter Char.isAlphanum := by
  constructor
  · have hns := cleanGo_no_special_output [] s.data (by simp) (by simp)
    have hid := cleanGo_id_of_no_special [] (cleanGo [] s.data)
      (fun c hc => ⟨fun he => hns.1 (he ▸ hc), fun he => hns.2 (he ▸ hc)⟩)
    unfold clean_llm_output
    simp only [String.data]
    rw [hid]
    simp
  · have h := cleanGo_filter Char.isAlphanum (by decide) (by decide) (by decide) [] s.data
    unfold clean_llm_output
    simp only [String.data]
    rw [h]
    simp

/-- Claim C3 (counterexample): feeding `["Hel", "lo. ", "Wor", "ld"]`
through the per-fragment callback does not produce the two dispatches
`"Hello. "` and `"World"` the claim describes; in particular no dispatch
at all happens during the first three fragments, because after
`"lo. "` the buffer is `"Hello. "`, whose final character is a space —
`ends_with('.')` is false. -/
theorem sentence_segmentation_counterexample :
    chatDispatches ["Hel", "lo. ", "Wor", "ld"] ≠ ["Hello. ", "World"] ∧
    (runChatStream [] ["Hel", "lo. ", "Wor"]).2 = [] := by
  decide

/-- Claim C3 (amended): the fragment sequence `["Hel", "lo. ", "Wor",
"ld"]` produces exactly one synthesis dispatch, `"Hello. World"`, at the
final flush; no sentence boundary fires during streaming because the
fragment `"lo. "` leaves the buffer ending in a space. -/
theorem sentence_segmentation_single_flush :
    chatDispatches ["Hel", "lo. ", "Wor", "ld"] = ["Hello. World"] ∧
    (runChatStream [] ["Hel", "lo. ", "Wor", "ld"]).2 = [] := by
  decide

/-- Pipeline that fails on every chunk, as when `tts.synthesize`
returns an `Err` for each input. -/
def failingPipeline : String → Except String String :=
  fun _ => .error "synthesis failed"

/-- Claim C7 (counterexample): when synthesis of the single dispatched
chunk `"Hello."` fails, the worker emits no event at all on the
outbound channel — in particular no `tts_error` event; the failure is
only written to stderr. -/
theorem tts_error_counterexample :
    failingPipeline "Hello." = .error "synthesis failed" ∧
    tts_worker failingPipeline ["Hello."] = [] ∧
    ¬ ∃ e ∈ tts_worker failingPipeline ["Hello."], e.kind = "tts_error" := by
  refine ⟨rfl, rfl, ?_⟩
  simp [tts_worker, failingPipeline]

/-- Claim C7 (amended): when synthesis of a dispatched chunk fails, the
worker skips the chunk and continues processing the subsequent chunks —
the failure is never fatal to the turn — but no `tts_error` event is
emitted on the outbound event channel: the only events the worker ever
emits are `audio_complete` events, and a failure is logged to stderr
only. -/
theorem tts_worker_error_skipped (pipeline : String → Except String String)
    (c : String) (rest : List String) (msg : String)
    (hfail : pipeline c = .error msg) :
    tts_worker pipeline (c :: rest) = tts_worker pipeline rest ∧
    ∀ chunks : List String, ∀ e ∈ tts_worker pipeline chunks, e.kind = "audio_complete" := by
  constructor
  · simp [tts_worker, hfail]
  · intro chunks
    induction chunks with
    | nil => simp [tts_worker]
    | cons d ds ih =>
      intro e he
      cases hd : pipeline d with
      | ok wav =>
        simp [tts_worker, hd] at he
        rcases he with he | he
        · rw [he]
        · exact ih e he
      | error m =>
        simp [tts_worker, hd] at he
        exact ih e he

/-- Witness for `tts_worker_error_skipped` at a concrete failing
pipeline and chunk list. -/
theorem tts_worker_error_skipped_witness :
    tts_worker failingPipeline ("Hello." :: ["world."]) = tts_worker failingPipeline ["world."] ∧
    ∀ chunks : List String, ∀ e ∈ tts_worker failingPipeline chunks,
      e.kind = "audio_complete" :=
  tts_worker_error_skipped failingPipeline "Hello." ["world."] "synthesis failed" rfl

/-- Concatenation of a list of pieces in generation order, matching the
`assistant_response.push_str(&piece)` accumulation in `ask`. -/
def concatPieces : List String → String
  | [] => ""
  | p :: rest => p ++ concatPieces rest

/-- Claim C10: for every generated piece stream consisting of marker-free
pieces `pre` (on which the callback succeeds) followed by a piece
containing `<|im_end|>` or `<|im_start|>`, `ask` stops consuming at that
piece: it is neither passed to the per-fragment callback nor included in
the recorded assistant response, and the recorded response is exactly
the concatenation of the pieces forwarded to the callback, namely
`pre`. -/
theorem ask_stops_at_marker (cb : String → Bool) (pre post : List String) (p : String)
    (hpre : ∀ q ∈ pre, hasStopMarker q = false ∧ cb q = true)
    (hp : hasStopMarker p = true) :
    askLoop cb (pre ++ p :: post) = (concatPieces pre, pre) := by
  induction pre with
  | nil =>
    simp [askLoop, hp, concatPieces]
  | cons q qs ih =>
    have hq := hpre q (by simp)
    have hrest : ∀ x ∈ qs, hasStopMarker x = false ∧ cb x = true :=
      fun x hx => hpre x (List.mem_cons_of_mem q hx)
    simp [askLoop, hq.1, hq.2, concatPieces, ih hrest]

/-- Witness for `ask_stops_at_marker` at a concrete stream. -/
theorem ask_stops_at_marker_witness :
    askLoop (fun _ => true) (["Hi ", "there"] ++ "x<|im_end|>" :: ["junk"]) =
      (concatPieces ["Hi ", "there"], ["Hi ", "there"]) :=
  ask_stops_at_marker (fun _ => true) ["Hi ", "there"] ["junk"] "x<|im_end|>"
    (by decide) (by decide)

theorem runTrace_append (s : Option Nat) (xs ys : List TurnAction) :
    runTrace s (xs ++ ys) = (runTrace s xs).bind fun s2 => runTrace s2 ys := by
  induction xs generalizing s with
  | nil => simp [runTrace]
  | cons a rest ih =>
    cases h : stepAction s a with
    | none => simp [runTrace, h]
    | some s2 => simp [runTrace, h, ih]

/-- While a request holds the engine-state lock, every generation step
executed before the lock is released is its own. -/
theorem held_through (r : Nat) :
    ∀ (mid : List TurnAction) (s2 : Option Nat),
      runTrace (some r) mid = some s2 →
      (∀ a ∈ mid, isUnlock a = false) →
      ∀ q, TurnAction.genStep q ∈ mid → q = r := by
  intro mid
  induction mid with
  | nil =>
    intro s2 _ _ q hq
    simp at hq
  | cons a rest ih =>
    intro s2 hrun hnl q hq
    cases a with
    | lockState r2 =>
      simp [runTrace, stepAction] at hrun
    | genStep r2 =>
      by_cases he : r = r2
      · subst he
        simp [runTrace, stepAction] at hrun
        rcases List.mem_cons.mp hq with h | h
        · cases h
          rfl
        · exact ih s2 hrun (fun b hb => hnl b (List.mem_cons_of_mem _ hb)) q h
      · simp [runTrace, stepAction, he] at hrun
    | unlockState r2 =>
      have hk := hnl _ (List.mem_cons_self _ _)
      simp [isUnlock] at hk

/-- Claim C9: generation-stage execution is serialized — in every valid
execution, once a request has locked the shared engine state and until
that lock is released, every generation step belongs to that request, so
two concurrent chat turns never have overlapping generation-stage
execution — and an admission timeout produces exactly one busy error
event while the handler returns before touching any engine
(`chat_admission` yields an immediate event stream instead of the
`none` that lets the pipeline run). -/
theorem admission_single_flight :
    (∀ (pre mid post : List TurnAction) (r : Nat) (s : Option Nat),
      runTrace none (pre ++ TurnAction.lockState r :: (mid ++ post)) = some s →
      (∀ a ∈ mid, isUnlock a = false) →
      ∀ q, TurnAction.genStep q ∈ mid → q = r) ∧
    chat_admission .timedOut = some [⟨"error", "Server is busy, please try again"⟩] ∧
    chat_admission .acquired = none := by
  refine ⟨?_, rfl, rfl⟩
  intro pre mid post r s hrun hnl q hq
  rw [runTrace_append] at hrun
  cases hpre : runTrace none pre with
  | none => rw [hpre] at hrun; simp at hrun
  | some s1 =>
    rw [hpre] at hrun
    simp only [Option.some_bind] at hrun
    cases s1 with
    | some h2 =>
      simp [runTrace, stepAction] at hrun
    | none =>
      rw [show (TurnAction.lockState r :: (mid ++ post)) =
        [TurnAction.lockState r] ++ (mid ++ post) from rfl, runTrace_append] at hrun
      have hlock : runTrace none [TurnAction.lockState r] = some (some r) := rfl
      rw [hlock] at hrun
      simp only [Option.some_bind] at hrun
      rw [runTrace_append] at hrun
      cases hmid : runTrace (some r) mid with
      | none => rw [hmid] at hrun; simp at hrun
      | some s2 =>
        exact held_through r mid s2 hmid hnl q hq

/-- Witness for `admission_single_flight` at a concrete two-action
critical section. -/
theorem admission_single_flight_witness :
    (0 : Nat) = 0 ∧
    chat_admission .timedOut = some [⟨"error", "Server is busy, please try again"⟩] :=
  ⟨admission_single_flight.1 [] [TurnAction.genStep 0] [TurnAction.unlockState 0] 0 none
      (by decide) (by decide) 0 (by decide),
    admission_single_flight.2.1⟩

end Aira
